import Mathlib

/-!
# maikani: the critical-subjects handler

A shallow embedding of `handler/wanikani.go` (with `handler/handler.go` and
`server.go`): the data types, the two upstream calls, the cache-partition /
fetch / merge flow of `Handler.GetCriticalSubjects`, and the helper
`intSliceToString`.

Conventions of the embedding

* Go `int` values are `Int`; the code never does arithmetic on them, it only
  compares, prints and stores them.
* A Go slice that is serialised to JSON is a `GoSlice`, which keeps the
  difference between the nil slice and an empty non-nil slice; slices that are
  only ranged over are plain lists.
* The outside world (the WaniKani API reached through `http.Client`) is an
  `Upstream`: a function from the request to what `c.Do` and `json.Unmarshal`
  leave behind.
* `log.Fatal` ends the process: the run's outcome is `Outcome.fatal` and no
  response is written.
* The cache of `github.com/patrickmn/go-cache`, built in `server.go` with
  `cache.NoExpiration` for both the default expiration and the clean-up
  interval, is a map from string keys to values with no expiry and no janitor.
-/

namespace Maikani

/-! ## Library functions used by the handler -/

/-- Decimal digit character of a value below ten. -/
def decimalDigit : Nat → Char
  | 0 => '0'
  | 1 => '1'
  | 2 => '2'
  | 3 => '3'
  | 4 => '4'
  | 5 => '5'
  | 6 => '6'
  | 7 => '7'
  | 8 => '8'
  | _ => '9'

/-- Digit loop of `strconv.FormatInt` in base ten: peels off the last digit
until the value is below ten.  The first argument bounds the number of
iterations. -/
def formatUint : Nat → Nat → List Char → List Char
  | 0, _, acc => acc
  | fuel + 1, n, acc =>
    if n < 10 then decimalDigit n :: acc
    else formatUint fuel (n / 10) (decimalDigit (n % 10) :: acc)

/-- Decimal rendering of a natural number, most significant digit first. -/
def formatNat (n : Nat) : List Char := formatUint (n + 1) n []

/-- Model of `strconv.Itoa`: the decimal rendering of an integer, with a leading
minus sign for negative values. -/
def Itoa (i : Int) : String :=
  match i with
  | Int.ofNat n => String.mk (formatNat n)
  | Int.negSucc n => String.mk ('-' :: formatNat (n + 1))

/-- Value of a decimal digit character. -/
def digitValue (c : Char) : Option Nat :=
  if 48 ≤ c.toNat ∧ c.toNat ≤ 57 then some (c.toNat - 48) else none

/-- Reads a run of decimal digits, most significant first, onto an accumulator. -/
def parseUint : List Char → Nat → Option Nat
  | [], acc => some acc
  | c :: cs, acc =>
    match digitValue c with
    | some d => parseUint cs (acc * 10 + d)
    | none => none

/-- Model of `strconv.Atoi` on the characters of a string: an optional sign
followed by at least one decimal digit. -/
def Atoi (s : List Char) : Option Int :=
  match s with
  | [] => none
  | c :: cs =>
    if c = '-' then
      (if cs = [] then none else (parseUint cs 0).map (fun n => -(n : Int)))
    else if c = '+' then
      (if cs = [] then none else (parseUint cs 0).map (fun n => (n : Int)))
    else (parseUint (c :: cs) 0).map (fun n => (n : Int))

/-- Model of `strings.Join`: the elements separated by `sep`. -/
def stringsJoin : List String → String → String
  | [], _ => ""
  | [a], _ => a
  | a :: b :: rest, sep => a ++ sep ++ stringsJoin (b :: rest) sep

/-- Model of `strings.Split` for a one-character separator, on characters. -/
def stringsSplit (s : String) (sep : Char) : List String :=
  (s.data.splitOn sep).map String.mk

/-! ## `intSliceToString` -/

/-- Utility method for converting a slice of integers to a string separated by
a delimiter (`wanikani.go`, `intSliceToString`). -/
def intSliceToString (s : List Int) (delimiter : String) : String :=
  stringsJoin (s.foldl (fun stringSlice x => stringSlice ++ [Itoa x]) []) delimiter

/-! ## Data model -/

/-- A Go slice as seen by `encoding/json`: the nil slice, or a slice with
elements (possibly none). -/
inductive GoSlice (α : Type) where
  | nil : GoSlice α
  | elems (l : List α) : GoSlice α
  deriving DecidableEq

/-- Elements of a slice, as `range` visits them. -/
def GoSlice.toList {α : Type} : GoSlice α → List α
  | GoSlice.nil => []
  | GoSlice.elems l => l

/-- Go `append(s, xs...)`: appending nothing to the nil slice gives back the nil
slice. -/
def GoSlice.append {α : Type} (s : GoSlice α) (xs : List α) : GoSlice α :=
  match s, xs with
  | GoSlice.nil, [] => GoSlice.nil
  | GoSlice.nil, x :: rest => GoSlice.elems (x :: rest)
  | GoSlice.elems l, ys => GoSlice.elems (l ++ ys)

/-- One entry of `reviewStatistics.Data` (the inner `Data` struct). -/
structure reviewStatisticsEntry where
  SubjectID : Int
  SubjectType : String
  PercentageCorrect : Int
  deriving DecidableEq

/-- The struct `reviewStatistics`. -/
structure reviewStatistics where
  TotalCount : Int
  Data : List reviewStatisticsEntry
  deriving DecidableEq

/-- An element of `SubjectData.Data.Meanings`. -/
structure SubjectMeaning where
  Meaning : String
  Primary : Bool
  AcceptedAnswer : Bool
  deriving DecidableEq

/-- An element of `SubjectData.Data.Readings`. -/
structure SubjectReading where
  ReadingType : String
  Primary : Bool
  Reading : String
  AcceptedAnswer : Bool
  deriving DecidableEq

/-- The inner `Data` struct of `SubjectData`.  The timestamp and the two
dynamically typed fields (`interface{}`) are carried as their JSON text. -/
structure SubjectFields where
  CreatedAt : String
  Level : Int
  Slug : String
  HiddenAt : Option String
  DocumentURL : String
  Characters : String
  Meanings : List SubjectMeaning
  AuxiliaryMeanings : List String
  Readings : List SubjectReading
  ComponentSubjectIds : List Int
  AmalgamationSubjectIds : List Int
  VisuallySimilarSubjectIds : List Int
  MeaningMnemonic : String
  MeaningHint : String
  ReadingMnemonic : String
  ReadingHint : String
  deriving DecidableEq

/-- SubjectData - contains the struct needed to parse wanikani subject JSON
data. -/
structure SubjectData where
  ID : Int
  Object : String
  URL : String
  Data : SubjectFields
  deriving DecidableEq

/-- The struct `Subjects`; its `Data` slice is what is serialised under the JSON
key `data`. -/
structure Subjects where
  Data : GoSlice SubjectData
  deriving DecidableEq

/-! ## The cache -/

/-- The `go-cache` instance held by the handler: string keys, no expiry. Only
`SubjectData` values are ever stored, so the type assertion
`subject.(SubjectData)` of the handler always succeeds. -/
structure Cache where
  items : String → Option SubjectData

/-- The cache built by `cache.New` in `server.go`. -/
def Cache.New : Cache := ⟨fun _ => none⟩

/-- The lookup `Get(key)`: the value and whether it was found. -/
def Cache.Get (c : Cache) (key : String) : Option SubjectData := c.items key

/-- The store `Set(key, value, cache.NoExpiration)`: inserts or overwrites. -/
def Cache.Set (c : Cache) (key : String) (value : SubjectData) : Cache :=
  ⟨fun k => if k = key then some value else c.items k⟩

/-- The cache key of a subject ID: `"subjects:" + strconv.Itoa(id)`. -/
def subjectKey (id : Int) : String := "subjects:" ++ Itoa id

/-! ## The upstream API -/

/-- What an upstream call leaves in the hands of the caller: either `c.Do`
returned an error, or it returned a response, whose body `json.Unmarshal`
decoded into `decoded` (the zero value when the body is not valid JSON),
reporting `decodeFailed` when the body did not have the expected shape. -/
inductive HttpResult (α : Type) where
  | transportError : HttpResult α
  | response (decoded : α) (decodeFailed : Bool) : HttpResult α
  deriving DecidableEq

/-- The WaniKani API as the handler sees it.  `statistics token` answers
`GET /review_statistics?percentages_less_than=75` with bearer `token`;
`subjects token ids` answers `GET /subjects?ids=<ids>` with bearer `token`. -/
structure Upstream where
  statistics : String → HttpResult reviewStatistics
  subjects : String → String → HttpResult Subjects

/-- The function `getReviewStatistics`: `none` is the `log.Fatal` exit; the
error of `json.Unmarshal` is dropped. -/
def getReviewStatistics (c : Upstream) (token : String) : Option reviewStatistics :=
  match c.statistics token with
  | HttpResult.transportError => none
  | HttpResult.response statistics _ => some statistics

/-- The function `getCriticalItemIds`: the subject IDs of the statistics
entries, in order. -/
def getCriticalItemIds (c : Upstream) (token : String) : Option (List Int) :=
  match getReviewStatistics c token with
  | none => none
  | some criticalItems =>
    some (criticalItems.Data.foldl (fun itemIds item => itemIds ++ [item.SubjectID]) [])

/-- The function `getSubjects`: `none` is the `log.Fatal` exit; the error of
`json.Unmarshal` is dropped. -/
def getSubjects (c : Upstream) (ids : List Int) (token : String) : Option Subjects :=
  match c.subjects token (intSliceToString ids ",") with
  | HttpResult.transportError => none
  | HttpResult.response criticalSubjects _ => some criticalSubjects

/-! ## The handler -/

/-- How a run of the handler ends: the process is terminated by `log.Fatal`
before any response is written, or `c.JSON(status, body)` writes a response. -/
inductive Outcome where
  | fatal : Outcome
  | json (status : Nat) (body : Subjects) : Outcome
  deriving DecidableEq

/-- A run of the handler: the cache it leaves, the `getSubjects` calls it made
(the `ids` argument of each, in order) and how it ended. -/
structure Run where
  cache : Cache
  fetches : List (List Int)
  outcome : Outcome

/-- The partition loop of `GetCriticalSubjects` (the `for _, id := range ids`
block), started from the current `cachedSubjects.Data` and `uncachedIds`. -/
def partitionIds (goCache : Cache) :
    List Int → GoSlice SubjectData → List Int → GoSlice SubjectData × List Int
  | [], cachedData, uncachedIds => (cachedData, uncachedIds)
  | id :: rest, cachedData, uncachedIds =>
    match goCache.Get (subjectKey id) with
    | some subject => partitionIds goCache rest (cachedData.append [subject]) uncachedIds
    | none => partitionIds goCache rest cachedData (uncachedIds ++ [id])

/-- The store loop of `GetCriticalSubjects`
(`for _, subject := range uncachedSubjects.Data`). -/
def storeSubjects (goCache : Cache) (subjects : List SubjectData) : Cache :=
  subjects.foldl (fun cache subject => cache.Set (subjectKey subject.ID) subject) goCache

/-- GetCriticalSubjects - Retrieves the critical review items from a WaniKani
user based on the token given. Returns a struct `Subjects` which contains the
critical items and their details.  The receiver fields `h.Client` and
`h.GoCache` are the arguments `client` and `goCache`; `token` is the query
parameter `APIToken`. -/
def GetCriticalSubjects (client : Upstream) (goCache : Cache) (token : String) : Run :=
  match getCriticalItemIds client token with
  | none => ⟨goCache, [], Outcome.fatal⟩
  | some ids =>
    let cachedSubjects : Subjects := ⟨GoSlice.nil⟩
    let uncachedIds : List Int := []
    let parts := partitionIds goCache ids cachedSubjects.Data uncachedIds
    if parts.2.length > 0 then
      match getSubjects client parts.2 token with
      | none => ⟨goCache, [parts.2], Outcome.fatal⟩
      | some uncachedSubjects =>
        ⟨storeSubjects goCache uncachedSubjects.Data.toList, [parts.2],
          Outcome.json 200 ⟨parts.1.append uncachedSubjects.Data.toList⟩⟩
    else ⟨goCache, [], Outcome.json 200 ⟨parts.1⟩⟩

/-- The input IDs that have no cache entry, in traversal order, duplicates
kept: what the specification calls the uncached IDs. -/
def uncachedOf (goCache : Cache) (ids : List Int) : List Int :=
  ids.filter (fun id => (goCache.Get (subjectKey id)).isNone)

/-- The cached detail of each input ID that has a cache entry, one per
occurrence, in traversal order: what the specification calls the cached
results. -/
def cachedOf (goCache : Cache) (ids : List Int) : List SubjectData :=
  ids.filterMap (fun id => goCache.Get (subjectKey id))

/-! ## The JSON body of the response -/

/-- The JSON value `encoding/json` writes for a slice: `null` for the nil
slice, an array otherwise. -/
inductive JsonSlice (α : Type) where
  | null : JsonSlice α
  | array (items : List α) : JsonSlice α
  deriving DecidableEq

/-- The JSON object written for a `Subjects` value: one member, `data`. -/
structure SubjectsJson where
  data : JsonSlice SubjectData
  deriving DecidableEq

/-- Encoding of `Subjects` by `c.JSON` (`encoding/json`, field tag
`json:"data"`, no `omitempty`). -/
def marshalSubjects (s : Subjects) : SubjectsJson :=
  match s.Data with
  | GoSlice.nil => ⟨JsonSlice.null⟩
  | GoSlice.elems l => ⟨JsonSlice.array l⟩

/-- The ordered list of details carried by an outcome (none for a fatal exit). -/
def Outcome.payload : Outcome → List SubjectData
  | Outcome.fatal => []
  | Outcome.json _ body => body.Data.toList

/-! ## Reachable cache states -/

/-- Cache states the server can be in: the empty cache of `server.go`, and the
cache left by a run of the handler from a reachable state, for any token and
any upstream behaviour. -/
inductive Reachable : Cache → Prop where
  | init : Reachable Cache.New
  | run (client : Upstream) (goCache : Cache) (token : String) :
      Reachable goCache → Reachable (GetCriticalSubjects client goCache token).cache

/-! ## Sample data -/

/-- A `SubjectData.Data` with every field at its zero value. -/
def zeroFields : SubjectFields :=
  ⟨"", 0, "", none, "", "", [], [], [], [], [], [], "", "", "", ""⟩

/-- A subject detail with the given ID and slug. -/
def sampleSubject (id : Int) (slug : String) : SubjectData :=
  ⟨id, "kanji", "", { zeroFields with Slug := slug }⟩

/-- A statistics result with one entry per given subject ID. -/
def sampleStatistics (ids : List Int) : reviewStatistics :=
  ⟨ids.length, ids.map (fun id => ⟨id, "kanji", 50⟩)⟩

/-- An upstream with critical items 1, 2, 3 that answers every subject request
with the details of 1, 2 and 3. -/
def steadyClient : Upstream :=
  ⟨fun _ => HttpResult.response (sampleStatistics [1, 2, 3]) false,
   fun _ _ => HttpResult.response
     ⟨GoSlice.elems [sampleSubject 1 "one", sampleSubject 2 "two", sampleSubject 3 "three"]⟩
     false⟩

/-- A cache holding the detail of subject 1. -/
def oneCache : Cache := Cache.New.Set "subjects:1" (sampleSubject 1 "one")

/-- A cache holding the details of subjects 1 and 2. -/
def warmCache : Cache := oneCache.Set "subjects:2" (sampleSubject 2 "two")

/-- A cache holding the details of subjects 1, 2 and 3. -/
def fullCache : Cache := warmCache.Set "subjects:3" (sampleSubject 3 "three")

/-- An upstream with critical item 1 whose subject response carries two
different details with ID 1. -/
def duplicateClient : Upstream :=
  ⟨fun _ => HttpResult.response (sampleStatistics [1]) false,
   fun _ _ => HttpResult.response
     ⟨GoSlice.elems [sampleSubject 1 "first", sampleSubject 1 "second"]⟩ false⟩

/-- An upstream with critical item 3 whose subject response also carries a
detail for subject 1, which was not asked for. -/
def generousClient : Upstream :=
  ⟨fun _ => HttpResult.response (sampleStatistics [3]) false,
   fun _ _ => HttpResult.response
     ⟨GoSlice.elems [sampleSubject 3 "three", sampleSubject 1 "renewed"]⟩ false⟩

/-- An upstream with critical items 1 and 2 that returns one detail per
request: subject 1 for the request `1,2`, subject 2 for the request `2`. -/
def pagedClient : Upstream :=
  ⟨fun _ => HttpResult.response (sampleStatistics [1, 2]) false,
   fun _ ids =>
     if ids = "1,2" then HttpResult.response ⟨GoSlice.elems [sampleSubject 1 "one"]⟩ false
     else if ids = "2" then HttpResult.response ⟨GoSlice.elems [sampleSubject 2 "two"]⟩ false
     else HttpResult.response ⟨GoSlice.nil⟩ false⟩

/-- An upstream whose statistics body is not valid JSON: `json.Unmarshal`
reports an error and leaves the zero value. -/
def garbledClient : Upstream :=
  ⟨fun _ => HttpResult.response ⟨0, []⟩ true, fun _ _ => HttpResult.transportError⟩

/-- An upstream whose statistics call fails in transport. -/
def unreachableClient : Upstream :=
  ⟨fun _ => HttpResult.transportError, fun _ _ => HttpResult.transportError⟩

/-- An upstream with critical item 1 whose subject call fails in transport. -/
def halfReachableClient : Upstream :=
  ⟨fun _ => HttpResult.response (sampleStatistics [1]) false,
   fun _ _ => HttpResult.transportError⟩

/-- An upstream with no critical items. -/
def idleClient : Upstream :=
  ⟨fun _ => HttpResult.response (sampleStatistics []) false,
   fun _ _ => HttpResult.response ⟨GoSlice.nil⟩ false⟩

/-! ## Decimal rendering: auxiliary facts -/

lemma digitValue_decimalDigit (d : Nat) (h : d < 10) : digitValue (decimalDigit d) = some d := by
  interval_cases d <;> rfl

lemma decimalDigit_ne_comma (d : Nat) : decimalDigit d ≠ ',' := by
  unfold decimalDigit
  split <;> decide

lemma decimalDigit_ne_minus (d : Nat) : decimalDigit d ≠ '-' := by
  unfold decimalDigit
  split <;> decide

lemma decimalDigit_ne_plus (d : Nat) : decimalDigit d ≠ '+' := by
  unfold decimalDigit
  split <;> decide

lemma parseUint_formatUint (fuel : Nat) :
    ∀ (n : Nat) (acc : List Char), n < fuel →
      parseUint (formatUint fuel n acc) 0 = parseUint acc n := by
  induction fuel with
  | zero => intro n acc h; omega
  | succ fuel ih =>
    intro n acc h
    unfold formatUint
    split_ifs with hn
    · simp [parseUint, digitValue_decimalDigit n hn]
    · have hlt : n / 10 < fuel := by omega
      rw [ih (n / 10) _ hlt]
      have hmod : n % 10 < 10 := Nat.mod_lt _ (by decide)
      simp only [parseUint, digitValue_decimalDigit _ hmod]
      congr 1
      omega

lemma formatUint_head (fuel : Nat) :
    ∀ (n : Nat) (acc : List Char),
      ∃ d rest, formatUint (fuel + 1) n acc = decimalDigit d :: rest := by
  induction fuel with
  | zero =>
    intro n acc
    unfold formatUint
    split_ifs
    · exact ⟨_, _, rfl⟩
    · exact ⟨_, _, rfl⟩
  | succ fuel ih =>
    intro n acc
    unfold formatUint
    split_ifs
    · exact ⟨_, _, rfl⟩
    · exact ih _ _

lemma comma_not_mem_formatUint (fuel : Nat) :
    ∀ (n : Nat) (acc : List Char), ',' ∉ acc → ',' ∉ formatUint fuel n acc := by
  induction fuel with
  | zero => intro n acc h; simpa [formatUint] using h
  | succ fuel ih =>
    intro n acc h
    unfold formatUint
    split_ifs
    · simp only [List.mem_cons, not_or]
      exact ⟨fun e => decimalDigit_ne_comma _ e.symm, h⟩
    · apply ih
      simp only [List.mem_cons, not_or]
      exact ⟨fun e => decimalDigit_ne_comma _ e.symm, h⟩

lemma parseUint_formatNat (n : Nat) : parseUint (formatNat n) 0 = some n := by
  unfold formatNat
  rw [parseUint_formatUint (n + 1) n [] (Nat.lt_succ_self n)]
  rfl

lemma Atoi_Itoa (i : Int) : Atoi (Itoa i).data = some i := by
  cases i with
  | ofNat n =>
    obtain ⟨d, rest, hd⟩ := formatUint_head n n []
    have hp := parseUint_formatNat n
    unfold formatNat at hp
    simp only [Itoa, formatNat]
    rw [hd] at hp ⊢
    simp [Atoi, decimalDigit_ne_minus, decimalDigit_ne_plus, hp]
  | negSucc n =>
    obtain ⟨d, rest, hd⟩ := formatUint_head (n + 1) (n + 1) []
    have hp := parseUint_formatNat (n + 1)
    have hne : formatNat (n + 1) ≠ [] := by
      unfold formatNat
      rw [hd]
      simp
    simp [Itoa, Atoi, hne, hp, Int.negSucc_eq]

lemma comma_not_mem_Itoa (i : Int) : ',' ∉ (Itoa i).data := by
  cases i with
  | ofNat n =>
    simp only [Itoa, formatNat]
    exact comma_not_mem_formatUint _ _ _ (by simp)
  | negSucc n =>
    simp only [Itoa, formatNat, List.mem_cons, not_or]
    exact ⟨by decide, comma_not_mem_formatUint _ _ _ (by simp)⟩

lemma Itoa_data_ne_nil (i : Int) : (Itoa i).data ≠ [] := by
  intro h
  have := Atoi_Itoa i
  rw [h] at this
  simp [Atoi] at this

lemma Itoa_injective : Function.Injective Itoa := by
  intro a b h
  have ha := Atoi_Itoa a
  rw [h, Atoi_Itoa b] at ha
  exact (Option.some.inj ha).symm

lemma subjectKey_injective : Function.Injective subjectKey := by
  intro a b h
  unfold subjectKey at h
  apply Itoa_injective
  have h2 := congrArg String.data h
  simp only [String.data_append, List.append_cancel_left_eq] at h2
  exact String.ext h2

/-! ## Joining and splitting: auxiliary facts -/

lemma foldl_append_singleton {α β : Type} (f : α → β) (l : List α) :
    ∀ init : List β, l.foldl (fun acc x => acc ++ [f x]) init = init ++ l.map f := by
  induction l with
  | nil => intro init; simp
  | cons a l ih => intro init; simp [ih]

lemma stringsJoin_data (sep : String) :
    ∀ l : List String,
      (stringsJoin l sep).data = List.intercalate sep.data (l.map String.data) := by
  intro l
  induction l with
  | nil => simp [stringsJoin, List.intercalate]
  | cons a l ih =>
    cases l with
    | nil => simp [stringsJoin, List.intercalate]
    | cons b rest =>
      simp only [stringsJoin, String.data_append, ih]
      simp [List.intercalate, List.intersperse]

lemma intSliceToString_data (s : List Int) (delimiter : String) :
    (intSliceToString s delimiter).data
      = List.intercalate delimiter.data (s.map (fun i => (Itoa i).data)) := by
  unfold intSliceToString
  rw [foldl_append_singleton Itoa s [], stringsJoin_data]
  simp [List.map_map, Function.comp_def]

lemma intercalate_ends {α : Type} (x : α) :
    ∀ ls : List (List α), (∀ l ∈ ls, l ≠ [] ∧ x ∉ l) →
      (List.intercalate [x] ls).head? ≠ some x ∧
      (List.intercalate [x] ls).getLast? ≠ some x ∧
      (ls ≠ [] → List.intercalate [x] ls ≠ []) := by
  intro ls
  induction ls with
  | nil => intro _; simp [List.intercalate]
  | cons a ls ih =>
    intro h
    have ha := h a (List.mem_cons_self _ _)
    have ih2 := ih (fun l hl => h l (List.mem_cons_of_mem _ hl))
    cases ls with
    | nil =>
      have hone : List.intercalate [x] [a] = a := by
        simp [List.intercalate, List.intersperse]
      rw [hone]
      refine ⟨?_, ?_, fun _ => ha.1⟩
      · intro e
        exact ha.2 (List.mem_of_mem_head? e)
      · intro e
        exact ha.2 (List.mem_of_mem_getLast? e)
    | cons b rest =>
      have hrec : List.intercalate [x] (a :: b :: rest)
          = a ++ x :: List.intercalate [x] (b :: rest) := by
        simp [List.intercalate, List.intersperse]
      rw [hrec]
      have hne := ih2.2.2 (by simp)
      refine ⟨?_, ?_, by simp⟩
      · intro e
        rw [List.head?_append_of_ne_nil _ ha.1] at e
        exact ha.2 (List.mem_of_mem_head? e)
      · intro e
        rw [List.getLast?_append_of_ne_nil _ (by simp)] at e
        obtain ⟨c, t, ht⟩ := List.exists_cons_of_ne_nil hne
        rw [ht, List.getLast?_cons_cons] at e
        have h3 := ih2.2.1
        rw [ht] at h3
        exact h3 e

/-! ## The handler: auxiliary facts -/

lemma GoSlice.toList_append {α : Type} (s : GoSlice α) (xs : List α) :
    (s.append xs).toList = s.toList ++ xs := by
  cases s with
  | nil => cases xs <;> rfl
  | elems l => rfl

lemma partitionIds_eq (goCache : Cache) :
    ∀ (ids : List Int) (cachedData : GoSlice SubjectData) (uncachedIds : List Int),
      (partitionIds goCache ids cachedData uncachedIds).1.toList
          = cachedData.toList ++ ids.filterMap (fun id => goCache.Get (subjectKey id)) ∧
      (partitionIds goCache ids cachedData uncachedIds).2
          = uncachedIds ++ ids.filter (fun id => (goCache.Get (subjectKey id)).isNone) := by
  intro ids
  induction ids with
  | nil => intro cd us; simp [partitionIds]
  | cons id rest ih =>
    intro cd us
    unfold partitionIds
    cases hget : goCache.Get (subjectKey id) with
    | none =>
      obtain ⟨h1, h2⟩ := ih cd (us ++ [id])
      simp [h1, h2, hget, List.filterMap_cons, List.filter_cons]
    | some subject =>
      obtain ⟨h1, h2⟩ := ih (cd.append [subject]) us
      simp [h1, h2, hget, List.filterMap_cons, List.filter_cons, GoSlice.toList_append]

lemma getCriticalItemIds_eq (client : Upstream) (token : String) :
    getCriticalItemIds client token =
      match client.statistics token with
      | HttpResult.transportError => none
      | HttpResult.response statistics _ => some (statistics.Data.map (fun e => e.SubjectID)) := by
  unfold getCriticalItemIds getReviewStatistics
  cases client.statistics token with
  | transportError => rfl
  | response st flag => simp [foldl_append_singleton (fun e : reviewStatisticsEntry => e.SubjectID)]

lemma storeSubjects_append (goCache : Cache) (l : List SubjectData) (d : SubjectData) :
    storeSubjects goCache (l ++ [d]) = (storeSubjects goCache l).Set (subjectKey d.ID) d := by
  simp [storeSubjects, List.foldl_append]

lemma Cache.Get_Set (c : Cache) (key : String) (value : SubjectData) (k : String) :
    (c.Set key value).Get k = if k = key then some value else c.Get k := rfl

/-- A lookup after the store loop gives the old entry, or a stored detail under
its own key. -/
lemma storeSubjects_get_cases (goCache : Cache) (k : String) (l : List SubjectData) :
    (storeSubjects goCache l).Get k = goCache.Get k ∨
      ∃ d ∈ l, subjectKey d.ID = k ∧ (storeSubjects goCache l).Get k = some d := by
  induction l using List.reverseRecOn with
  | nil => left; rfl
  | append_singleton l d ih =>
    rw [storeSubjects_append, Cache.Get_Set]
    by_cases hk : k = subjectKey d.ID
    · right
      exact ⟨d, by simp, hk.symm, by simp [hk]⟩
    · rw [if_neg hk]
      rcases ih with h | ⟨e, he, hke, hget⟩
      · left; exact h
      · right
        exact ⟨e, by simp [he], hke, hget⟩

lemma storeSubjects_get_of_forall_ne (goCache : Cache) (k : String) (l : List SubjectData)
    (h : ∀ d ∈ l, subjectKey d.ID ≠ k) :
    (storeSubjects goCache l).Get k = goCache.Get k := by
  rcases storeSubjects_get_cases goCache k l with h1 | ⟨d, hd, hk, _⟩
  · exact h1
  · exact absurd hk (h d hd)

lemma storeSubjects_get_isSome (goCache : Cache) (k : String) (l : List SubjectData)
    (h : (goCache.Get k).isSome) : ((storeSubjects goCache l).Get k).isSome := by
  rcases storeSubjects_get_cases goCache k l with h1 | ⟨d, _, _, hget⟩
  · rw [h1]; exact h
  · rw [hget]; rfl

/-- After the store loop, a lookup by the ID of a stored detail returns a stored
detail with that ID. -/
lemma storeSubjects_get_mem (goCache : Cache) (l : List SubjectData) (d : SubjectData)
    (hd : d ∈ l) :
    ∃ e ∈ l, e.ID = d.ID ∧ (storeSubjects goCache l).Get (subjectKey d.ID) = some e := by
  induction l using List.reverseRecOn with
  | nil => simp at hd
  | append_singleton l x ih =>
    rw [storeSubjects_append, Cache.Get_Set]
    by_cases hk : subjectKey d.ID = subjectKey x.ID
    · exact ⟨x, by simp, (subjectKey_injective hk).symm, by simp [hk]⟩
    · rw [if_neg hk]
      have hdl : d ∈ l := by
        rcases List.mem_append.mp hd with h | h
        · exact h
        · simp only [List.mem_singleton] at h
          exact absurd (by rw [h]) hk
      obtain ⟨e, he, hid, hget⟩ := ih hdl
      exact ⟨e, by simp [he], hid, hget⟩

/-! ## The handler: the shape of a run -/

lemma partitionIds_start (goCache : Cache) (ids : List Int) :
    (partitionIds goCache ids GoSlice.nil []).1.toList = cachedOf goCache ids ∧
    (partitionIds goCache ids GoSlice.nil []).2 = uncachedOf goCache ids := by
  obtain ⟨h1, h2⟩ := partitionIds_eq goCache ids GoSlice.nil []
  exact ⟨by simpa [GoSlice.toList, cachedOf] using h1, by simpa [uncachedOf] using h2⟩

lemma length_cachedOf_add (goCache : Cache) (ids : List Int) :
    (cachedOf goCache ids).length + (uncachedOf goCache ids).length = ids.length := by
  induction ids with
  | nil => rfl
  | cons id rest ih =>
    unfold cachedOf uncachedOf at ih ⊢
    cases hget : goCache.Get (subjectKey id) with
    | none => simp [List.filterMap_cons, List.filter_cons, hget]; omega
    | some v => simp [List.filterMap_cons, List.filter_cons, hget]; omega

lemma run_stats_error (client : Upstream) (goCache : Cache) (token : String)
    (h : getCriticalItemIds client token = none) :
    GetCriticalSubjects client goCache token = ⟨goCache, [], Outcome.fatal⟩ := by
  unfold GetCriticalSubjects
  rw [h]

lemma run_all_cached (client : Upstream) (goCache : Cache) (token : String) (ids : List Int)
    (h : getCriticalItemIds client token = some ids) (hu : uncachedOf goCache ids = []) :
    GetCriticalSubjects client goCache token
      = ⟨goCache, [], Outcome.json 200 ⟨(partitionIds goCache ids GoSlice.nil []).1⟩⟩ := by
  unfold GetCriticalSubjects
  rw [h]
  simp only [(partitionIds_start goCache ids).2, hu]
  simp

lemma run_fetch_error (client : Upstream) (goCache : Cache) (token : String) (ids : List Int)
    (h : getCriticalItemIds client token = some ids) (hu : uncachedOf goCache ids ≠ [])
    (hs : client.subjects token (intSliceToString (uncachedOf goCache ids) ",")
      = HttpResult.transportError) :
    GetCriticalSubjects client goCache token
      = ⟨goCache, [uncachedOf goCache ids], Outcome.fatal⟩ := by
  unfold GetCriticalSubjects
  rw [h]
  simp only [(partitionIds_start goCache ids).2, getSubjects, hs]
  simp [List.length_pos, hu]

lemma run_fetch_ok (client : Upstream) (goCache : Cache) (token : String) (ids : List Int)
    (sub : Subjects) (flag : Bool)
    (h : getCriticalItemIds client token = some ids) (hu : uncachedOf goCache ids ≠ [])
    (hs : client.subjects token (intSliceToString (uncachedOf goCache ids) ",")
      = HttpResult.response sub flag) :
    GetCriticalSubjects client goCache token
      = ⟨storeSubjects goCache sub.Data.toList, [uncachedOf goCache ids],
          Outcome.json 200
            ⟨(partitionIds goCache ids GoSlice.nil []).1.append sub.Data.toList⟩⟩ := by
  unfold GetCriticalSubjects
  rw [h]
  simp only [(partitionIds_start goCache ids).2, getSubjects, hs]
  simp [List.length_pos, hu]

lemma run_fetches (client : Upstream) (goCache : Cache) (token : String) (ids : List Int)
    (h : getCriticalItemIds client token = some ids) :
    (GetCriticalSubjects client goCache token).fetches
      = if uncachedOf goCache ids = [] then [] else [uncachedOf goCache ids] := by
  by_cases hu : uncachedOf goCache ids = []
  · rw [run_all_cached client goCache token ids h hu, if_pos hu]
  · rw [if_neg hu]
    cases hs : client.subjects token (intSliceToString (uncachedOf goCache ids) ",") with
    | transportError => rw [run_fetch_error client goCache token ids h hu hs]
    | response sub flag => rw [run_fetch_ok client goCache token ids sub flag h hu hs]

lemma uncachedOf_eq_nil_iff (goCache : Cache) (ids : List Int) :
    uncachedOf goCache ids = [] ↔ ∀ id ∈ ids, (goCache.Get (subjectKey id)).isSome = true := by
  unfold uncachedOf
  rw [List.filter_eq_nil_iff]
  constructor
  · intro h id hid
    have := h id hid
    cases hg : goCache.Get (subjectKey id) <;> simp_all
  · intro h id hid
    have := h id hid
    cases hg : goCache.Get (subjectKey id) <;> simp_all

lemma uncachedOf_eq_self (goCache : Cache) (ids : List Int)
    (h : ∀ id ∈ ids, goCache.Get (subjectKey id) = none) : uncachedOf goCache ids = ids := by
  unfold uncachedOf
  rw [List.filter_eq_self]
  intro id hid
  simp [h id hid]

/-! ## The claims -/

/-- C1: the partition loop of `GetCriticalSubjects` splits the occurrences of
the input IDs exactly: the uncached IDs are the input IDs without a cache
entry, in order and with duplicates; the cached results are the cached details
of the other occurrences; the two lengths add up to the length of the input;
the only subject-fetch call, made when some ID is uncached, carries the
uncached IDs; and with no cache entry at all and a non-empty input the one call
carries the whole input. -/
theorem partition_exact (client : Upstream) (goCache : Cache) (token : String)
    (ids : List Int) (h : getCriticalItemIds client token = some ids) :
    (partitionIds goCache ids GoSlice.nil []).2
        = ids.filter (fun id => (goCache.Get (subjectKey id)).isNone) ∧
    (partitionIds goCache ids GoSlice.nil []).1.toList
        = ids.filterMap (fun id => goCache.Get (subjectKey id)) ∧
    (partitionIds goCache ids GoSlice.nil []).1.toList.length
        + (partitionIds goCache ids GoSlice.nil []).2.length = ids.length ∧
    (GetCriticalSubjects client goCache token).fetches
        = (if (partitionIds goCache ids GoSlice.nil []).2 = [] then []
           else [(partitionIds goCache ids GoSlice.nil []).2]) ∧
    ((∀ id ∈ ids, goCache.Get (subjectKey id) = none) → ids ≠ [] →
        (GetCriticalSubjects client goCache token).fetches = [ids]) := by
  obtain ⟨h1, h2⟩ := partitionIds_start goCache ids
  refine ⟨h2, h1, ?_, ?_, ?_⟩
  · rw [h1, h2]
    exact length_cachedOf_add goCache ids
  · rw [h2]
    exact run_fetches client goCache token ids h
  · intro hnone hne
    rw [run_fetches client goCache token ids h, uncachedOf_eq_self goCache ids hnone, if_neg hne]

/-- Witness of C1: cache holding 1 and 2, input IDs 1, 2, 3. -/
theorem partition_exact_witness :
    getCriticalItemIds steadyClient "token" = some [1, 2, 3] ∧
    (partitionIds warmCache [1, 2, 3] GoSlice.nil []).2 = [3] ∧
    (GetCriticalSubjects steadyClient warmCache "token").fetches = [[3]] := by
  have h := partition_exact steadyClient warmCache "token" [1, 2, 3] (by decide)
  refine ⟨by decide, by decide, ?_⟩
  rw [h.2.2.2.1]
  decide

/-- C2: when every input ID has a cache entry (the empty input included),
`GetCriticalSubjects` makes no subject-fetch call. -/
theorem all_cached_no_fetch (client : Upstream) (goCache : Cache) (token : String)
    (ids : List Int) (h : getCriticalItemIds client token = some ids)
    (hall : ∀ id ∈ ids, (goCache.Get (subjectKey id)).isSome = true) :
    (GetCriticalSubjects client goCache token).fetches = [] := by
  rw [run_fetches client goCache token ids h,
    if_pos ((uncachedOf_eq_nil_iff goCache ids).mpr hall)]

/-- Witness of C2: the cache holds 1, 2 and 3 and the input IDs are 1, 2, 3. -/
theorem all_cached_no_fetch_witness :
    getCriticalItemIds steadyClient "token" = some [1, 2, 3] ∧
    (∀ id ∈ [1, 2, 3], (fullCache.Get (subjectKey id)).isSome = true) ∧
    (GetCriticalSubjects steadyClient fullCache "token").fetches = [] :=
  ⟨by decide, by decide,
    all_cached_no_fetch steadyClient fullCache "token" [1, 2, 3] (by decide) (by decide)⟩

/-- C3: the payload of the response is the cached details of the cache hits, in
the order of the input IDs, followed by the details the upstream returned, in
the order it returned them; with no uncached ID no fetch is made and the
payload is the cached details alone. -/
theorem payload_is_concat (client : Upstream) (goCache : Cache) (token : String)
    (ids : List Int) (h : getCriticalItemIds client token = some ids) :
    (ids.filter (fun id => (goCache.Get (subjectKey id)).isNone) = [] →
      ∃ body, (GetCriticalSubjects client goCache token).outcome = Outcome.json 200 body ∧
        body.Data.toList = ids.filterMap (fun id => goCache.Get (subjectKey id))) ∧
    (∀ (sub : Subjects) (flag : Bool),
      ids.filter (fun id => (goCache.Get (subjectKey id)).isNone) ≠ [] →
      client.subjects token
          (intSliceToString (ids.filter (fun id => (goCache.Get (subjectKey id)).isNone)) ",")
        = HttpResult.response sub flag →
      ∃ body, (GetCriticalSubjects client goCache token).outcome = Outcome.json 200 body ∧
        body.Data.toList
          = ids.filterMap (fun id => goCache.Get (subjectKey id)) ++ sub.Data.toList) := by
  obtain ⟨h1, _⟩ := partitionIds_start goCache ids
  constructor
  · intro hu
    rw [run_all_cached client goCache token ids h hu]
    exact ⟨_, rfl, h1⟩
  · intro sub flag hu hs
    rw [run_fetch_ok client goCache token ids sub flag h hu hs]
    refine ⟨_, rfl, ?_⟩
    rw [GoSlice.toList_append, h1]
    rfl

/-- Witness of C3: cache holding 1 and 2, input IDs 1, 2, 3; the payload is the
two cached details followed by the three returned ones. -/
theorem payload_is_concat_witness :
    getCriticalItemIds steadyClient "token" = some [1, 2, 3] ∧
    (GetCriticalSubjects steadyClient warmCache "token").outcome.payload
      = [sampleSubject 1 "one", sampleSubject 2 "two",
         sampleSubject 1 "one", sampleSubject 2 "two", sampleSubject 3 "three"] := by
  have h := (payload_is_concat steadyClient warmCache "token" [1, 2, 3] (by decide)).2
    ⟨GoSlice.elems [sampleSubject 1 "one", sampleSubject 2 "two", sampleSubject 3 "three"]⟩
    false (by decide) (by decide)
  obtain ⟨body, hb, hl⟩ := h
  refine ⟨by decide, ?_⟩
  rw [hb]
  simp only [Outcome.payload, hl]
  decide

lemma run_fetch_inv (client : Upstream) (goCache : Cache) (token : String) (u : List Int)
    (hf : (GetCriticalSubjects client goCache token).fetches = [u]) :
    ∃ ids, getCriticalItemIds client token = some ids ∧ uncachedOf goCache ids = u ∧ u ≠ [] := by
  cases h : getCriticalItemIds client token with
  | none =>
    rw [run_stats_error client goCache token h] at hf
    simp at hf
  | some ids =>
    rw [run_fetches client goCache token ids h] at hf
    by_cases hu : uncachedOf goCache ids = []
    · rw [if_pos hu] at hf
      simp at hf
    · rw [if_neg hu] at hf
      have hu2 : uncachedOf goCache ids = u := by simpa using hf
      exact ⟨ids, rfl, hu2, hu2 ▸ hu⟩

lemma run_cache_cases (client : Upstream) (goCache : Cache) (token : String) :
    (GetCriticalSubjects client goCache token).cache = goCache ∨
    ∃ u sub flag, (GetCriticalSubjects client goCache token).fetches = [u] ∧
      client.subjects token (intSliceToString u ",") = HttpResult.response sub flag ∧
      (GetCriticalSubjects client goCache token).cache
        = storeSubjects goCache sub.Data.toList := by
  cases h : getCriticalItemIds client token with
  | none => left; rw [run_stats_error client goCache token h]
  | some ids =>
    by_cases hu : uncachedOf goCache ids = []
    · left; rw [run_all_cached client goCache token ids h hu]
    · cases hs : client.subjects token (intSliceToString (uncachedOf goCache ids) ",") with
      | transportError => left; rw [run_fetch_error client goCache token ids h hu hs]
      | response sub flag =>
        right
        refine ⟨uncachedOf goCache ids, sub, flag, ?_, hs, ?_⟩
        · rw [run_fetch_ok client goCache token ids sub flag h hu hs]
        · rw [run_fetch_ok client goCache token ids sub flag h hu hs]

lemma storeSubjects_get_unique (goCache : Cache) (l : List SubjectData) (d : SubjectData)
    (hd : d ∈ l) (huniq : ∀ e ∈ l, e.ID = d.ID → e = d) :
    (storeSubjects goCache l).Get (subjectKey d.ID) = some d := by
  obtain ⟨e, he, hid, hget⟩ := storeSubjects_get_mem goCache l d hd
  rw [hget, huniq e he hid]

lemma storeSubjects_get_last (goCache : Cache) (l1 l2 : List SubjectData) (d : SubjectData)
    (hlast : ∀ e ∈ l2, e.ID ≠ d.ID) :
    (storeSubjects goCache (l1 ++ d :: l2)).Get (subjectKey d.ID) = some d := by
  have hsplit : storeSubjects goCache (l1 ++ d :: l2)
      = storeSubjects ((storeSubjects goCache l1).Set (subjectKey d.ID) d) l2 := by
    simp [storeSubjects, List.foldl_append]
  rw [hsplit, storeSubjects_get_of_forall_ne _ _ l2
    (fun e he hkey => hlast e he (subjectKey_injective hkey)), Cache.Get_Set, if_pos rfl]

/-- Counterexample to C4: the upstream returns two different details with ID 1;
after the run the lookup by ID 1 returns the second, not the first. -/
theorem fetched_retrievable_counterexample :
    (GetCriticalSubjects duplicateClient Cache.New "token").fetches = [[1]] ∧
    duplicateClient.subjects "token" (intSliceToString [1] ",")
      = HttpResult.response
          ⟨GoSlice.elems [sampleSubject 1 "first", sampleSubject 1 "second"]⟩ false ∧
    (GetCriticalSubjects duplicateClient Cache.New "token").cache.Get
        (subjectKey (sampleSubject 1 "first").ID) = some (sampleSubject 1 "second") ∧
    (GetCriticalSubjects duplicateClient Cache.New "token").cache.Get
        (subjectKey (sampleSubject 1 "first").ID) ≠ some (sampleSubject 1 "first") := by
  decide

/-- C4 (amended): in a run that makes a subject-fetch call, for every detail d
the upstream returned, the lookup by the ID of d after the run is found and
returns a returned detail with that ID, namely the last one in the returned
list: it returns d itself when no later detail of the list has the ID of d, and
so whenever every returned detail with the ID of d equals d. -/
theorem fetched_retrievable (client : Upstream) (goCache : Cache) (token : String)
    (u : List Int) (sub : Subjects) (flag : Bool)
    (hf : (GetCriticalSubjects client goCache token).fetches = [u])
    (hs : client.subjects token (intSliceToString u ",") = HttpResult.response sub flag) :
    ∀ d ∈ sub.Data.toList,
      (∃ e ∈ sub.Data.toList, e.ID = d.ID ∧
        (GetCriticalSubjects client goCache token).cache.Get (subjectKey d.ID) = some e) ∧
      (∀ l1 l2, sub.Data.toList = l1 ++ d :: l2 → (∀ e ∈ l2, e.ID ≠ d.ID) →
        (GetCriticalSubjects client goCache token).cache.Get (subjectKey d.ID) = some d) ∧
      ((∀ e ∈ sub.Data.toList, e.ID = d.ID → e = d) →
        (GetCriticalSubjects client goCache token).cache.Get (subjectKey d.ID) = some d) := by
  obtain ⟨ids, h, hu, hne⟩ := run_fetch_inv client goCache token u hf
  subst hu
  rw [run_fetch_ok client goCache token ids sub flag h hne hs]
  intro d hd
  refine ⟨storeSubjects_get_mem goCache _ d hd, ?_,
    fun huniq => storeSubjects_get_unique goCache _ d hd huniq⟩
  intro l1 l2 hl hlast
  rw [hl]
  exact storeSubjects_get_last goCache l1 l2 d hlast

/-- Witness of C4 (amended): empty cache, input IDs 1, 2, 3, three details
returned; the detail of subject 2 is found under its ID. -/
theorem fetched_retrievable_witness :
    (GetCriticalSubjects steadyClient Cache.New "token").fetches = [[1, 2, 3]] ∧
    (GetCriticalSubjects steadyClient Cache.New "token").cache.Get
        (subjectKey (sampleSubject 2 "two").ID) = some (sampleSubject 2 "two") :=
  ⟨by decide,
    (fetched_retrievable steadyClient Cache.New "token" [1, 2, 3]
      ⟨GoSlice.elems [sampleSubject 1 "one", sampleSubject 2 "two", sampleSubject 3 "three"]⟩
      false (by decide) (by decide) (sampleSubject 2 "two") (by decide)).2.2 (by decide)⟩

/-- Counterexample to C5: the cache holds subject 1; the input ID 3 is fetched
and the upstream response also carries another detail with ID 1, which
replaces the cached one. -/
theorem entries_kept_counterexample :
    warmCache.Get "subjects:1" = some (sampleSubject 1 "one") ∧
    (GetCriticalSubjects generousClient warmCache "token").cache.Get "subjects:1"
      = some (sampleSubject 1 "renewed") ∧
    (GetCriticalSubjects generousClient warmCache "token").cache.Get "subjects:1"
      ≠ some (sampleSubject 1 "one") := by
  decide

/-- C5 (amended): every key present in the cache before a run is still present
after it; it maps to the same value whenever every detail returned by the
subject-fetch call of the run has one of the requested IDs (and always when no
such call is made). -/
theorem entries_kept (client : Upstream) (goCache : Cache) (token : String)
    (k : String) (v : SubjectData) (hk : goCache.Get k = some v) :
    (∃ w, (GetCriticalSubjects client goCache token).cache.Get k = some w) ∧
    ((∀ (u : List Int) (sub : Subjects) (flag : Bool),
        (GetCriticalSubjects client goCache token).fetches = [u] →
        client.subjects token (intSliceToString u ",") = HttpResult.response sub flag →
        ∀ d ∈ sub.Data.toList, d.ID ∈ u) →
      (GetCriticalSubjects client goCache token).cache.Get k = some v) := by
  rcases run_cache_cases client goCache token with hc | ⟨u, sub, flag, hf, hs, hc⟩
  · rw [hc]
    exact ⟨⟨v, hk⟩, fun _ => hk⟩
  · rw [hc]
    constructor
    · have := storeSubjects_get_isSome goCache k sub.Data.toList (by rw [hk]; rfl)
      exact Option.isSome_iff_exists.mp this
    · intro hreq
      rw [storeSubjects_get_of_forall_ne goCache k sub.Data.toList, hk]
      intro d hd hkey
      obtain ⟨ids, _, hu, _⟩ := run_fetch_inv client goCache token u hf
      have hmem := hreq u sub flag hf hs d hd
      rw [← hu, uncachedOf, List.mem_filter] at hmem
      rw [hkey, hk] at hmem
      simp at hmem

/-- Witness of C5 (amended): the cache holds subject 1, the input IDs are 1 and
2, the upstream returns the detail of 2 for the request of 2, and the entry of
subject 1 is unchanged by the run. -/
theorem entries_kept_witness :
    oneCache.Get "subjects:1" = some (sampleSubject 1 "one") ∧
    (GetCriticalSubjects pagedClient oneCache "token").cache.Get "subjects:1"
      = some (sampleSubject 1 "one") := by
  refine ⟨by decide,
    (entries_kept pagedClient oneCache "token" "subjects:1" (sampleSubject 1 "one")
      (by decide)).2 ?_⟩
  intro u sub flag hf hs d hd
  have hf2 : (GetCriticalSubjects pagedClient oneCache "token").fetches = [[2]] := by decide
  rw [hf2] at hf
  have hu : u = [2] := by simpa using hf.symm
  subst hu
  have hs2 : pagedClient.subjects "token" (intSliceToString [2] ",")
      = HttpResult.response ⟨GoSlice.elems [sampleSubject 2 "two"]⟩ false := by decide
  rw [hs2] at hs
  injection hs with h1 _
  subst h1
  simp only [GoSlice.toList, List.mem_singleton] at hd
  subst hd
  decide

lemma mem_cachedOf (goCache : Cache) (ids : List Int) (d : SubjectData) :
    d ∈ cachedOf goCache ids ↔ ∃ id ∈ ids, goCache.Get (subjectKey id) = some d := by
  simp [cachedOf, List.mem_filterMap]

lemma mem_uncachedOf (goCache : Cache) (ids : List Int) (id : Int) :
    id ∈ uncachedOf goCache ids ↔ id ∈ ids ∧ goCache.Get (subjectKey id) = none := by
  simp [uncachedOf, List.mem_filter]

/-- Counterexample to C6: the upstream answers the request for 1 and 2 with the
detail of 1 only, and the request for 2 with the detail of 2; the second run
adds subject 2 to the cache and to the payload. -/
theorem idempotent_counterexample :
    (GetCriticalSubjects pagedClient
        (GetCriticalSubjects pagedClient Cache.New "token").cache "token").cache
      ≠ (GetCriticalSubjects pagedClient Cache.New "token").cache ∧
    ¬ (∀ d,
        d ∈ (GetCriticalSubjects pagedClient
              (GetCriticalSubjects pagedClient Cache.New "token").cache "token").outcome.payload
        ↔ d ∈ (GetCriticalSubjects pagedClient Cache.New "token").outcome.payload) := by
  constructor
  · intro h
    have h2 := congrArg (fun c => c.Get "subjects:2") h
    revert h2
    decide
  · intro h
    have h2 := h (sampleSubject 2 "two")
    revert h2
    decide

/-- C6 (amended): when the subject-fetch call of the first run, if one is made,
is answered exactly (every requested ID is the ID of a returned detail, every
returned detail has a requested ID, and returned details with equal IDs are
equal), a second run with the same token and upstream leaves the cache equal to
the cache after the first run, and the details of the second payload are the
details of the first payload, ignoring order and multiplicity. -/
theorem idempotent (client : Upstream) (goCache : Cache) (token : String)
    (hwell : ∀ (u : List Int) (sub : Subjects) (flag : Bool),
      (GetCriticalSubjects client goCache token).fetches = [u] →
      client.subjects token (intSliceToString u ",") = HttpResult.response sub flag →
      (∀ id ∈ u, ∃ d ∈ sub.Data.toList, d.ID = id) ∧
      (∀ d ∈ sub.Data.toList, d.ID ∈ u) ∧
      (∀ d ∈ sub.Data.toList, ∀ e ∈ sub.Data.toList, d.ID = e.ID → d = e)) :
    (GetCriticalSubjects client
        (GetCriticalSubjects client goCache token).cache token).cache
      = (GetCriticalSubjects client goCache token).cache ∧
    (∀ d,
      d ∈ (GetCriticalSubjects client
            (GetCriticalSubjects client goCache token).cache token).outcome.payload
      ↔ d ∈ (GetCriticalSubjects client goCache token).outcome.payload) := by
  rcases run_cache_cases client goCache token with hc | ⟨u, sub, flag, hf, hs, hc⟩
  · rw [hc]
    exact ⟨hc, fun _ => Iff.rfl⟩
  · obtain ⟨ids, h, hu, hne⟩ := run_fetch_inv client goCache token u hf
    obtain ⟨hall, hreq, huniq⟩ := hwell u sub flag hf hs
    subst hu
    have hrun := run_fetch_ok client goCache token ids sub flag h hne hs
    have hstored : ∀ d ∈ sub.Data.toList,
        (storeSubjects goCache sub.Data.toList).Get (subjectKey d.ID) = some d :=
      fun d hd => storeSubjects_get_unique goCache _ d hd
        (fun e he hid => huniq e he d hd hid)
    have hkept : ∀ id, (goCache.Get (subjectKey id)).isSome = true →
        (storeSubjects goCache sub.Data.toList).Get (subjectKey id)
          = goCache.Get (subjectKey id) := by
      intro id hsome
      apply storeSubjects_get_of_forall_ne
      intro d hd hkey
      have hm := (mem_uncachedOf goCache ids d.ID).mp (hreq d hd)
      rw [← hkey, hm.2] at hsome
      simp at hsome
    have hfull : uncachedOf (storeSubjects goCache sub.Data.toList) ids = [] := by
      rw [uncachedOf_eq_nil_iff]
      intro id hid
      cases hg : goCache.Get (subjectKey id) with
      | some v => rw [hkept id (by rw [hg]; rfl), hg]; rfl
      | none =>
        obtain ⟨d, hd, hdid⟩ := hall id ((mem_uncachedOf goCache ids id).mpr ⟨hid, hg⟩)
        rw [← hdid, hstored d hd]
        rfl
    have hrun2 := run_all_cached client (storeSubjects goCache sub.Data.toList) token ids h hfull
    rw [hc, hrun2]
    refine ⟨rfl, ?_⟩
    intro d
    rw [hrun]
    simp only [Outcome.payload, GoSlice.toList_append,
      (partitionIds_start goCache ids).1,
      (partitionIds_start (storeSubjects goCache sub.Data.toList) ids).1,
      List.mem_append, mem_cachedOf]
    constructor
    · rintro ⟨id, hid, hget⟩
      cases hg : goCache.Get (subjectKey id) with
      | some v =>
        left
        rw [hkept id (by rw [hg]; rfl)] at hget
        exact ⟨id, hid, hget⟩
      | none =>
        right
        obtain ⟨e, he, heid⟩ := hall id ((mem_uncachedOf goCache ids id).mpr ⟨hid, hg⟩)
        rw [← heid, hstored e he] at hget
        exact (Option.some.inj hget) ▸ he
    · rintro (⟨id, hid, hget⟩ | hd)
      · refine ⟨id, hid, ?_⟩
        rw [hkept id (by rw [hget]; rfl), hget]
      · exact ⟨d.ID, ((mem_uncachedOf goCache ids d.ID).mp (hreq d hd)).1, hstored d hd⟩

/-- Witness of C6 (amended): the cache holds subject 1, the input IDs are 1 and
2, and the request for 2 is answered with the detail of 2. -/
theorem idempotent_witness :
    (GetCriticalSubjects pagedClient
        (GetCriticalSubjects pagedClient oneCache "token").cache "token").cache
      = (GetCriticalSubjects pagedClient oneCache "token").cache ∧
    (∀ d,
      d ∈ (GetCriticalSubjects pagedClient
            (GetCriticalSubjects pagedClient oneCache "token").cache "token").outcome.payload
      ↔ d ∈ (GetCriticalSubjects pagedClient oneCache "token").outcome.payload) := by
  apply idempotent pagedClient oneCache "token"
  intro u sub flag hf hs
  have hf2 : (GetCriticalSubjects pagedClient oneCache "token").fetches = [[2]] := by decide
  rw [hf2] at hf
  have hu : u = [2] := by simpa using hf.symm
  subst hu
  have hs2 : pagedClient.subjects "token" (intSliceToString [2] ",")
      = HttpResult.response ⟨GoSlice.elems [sampleSubject 2 "two"]⟩ false := by decide
  rw [hs2] at hs
  injection hs with h1 _
  subst h1
  decide

/-- Counterexample to C7: when the statistics body fails to decode, the error
of `json.Unmarshal` is dropped and the run answers 200 with a payload; when the
statistics call fails in transport, the run ends in `log.Fatal` and no response
is written at all. -/
theorem upstream_failure_counterexample :
    garbledClient.statistics "token" = HttpResult.response ⟨0, []⟩ true ∧
    (GetCriticalSubjects garbledClient Cache.New "token").outcome
      = Outcome.json 200 ⟨GoSlice.nil⟩ ∧
    unreachableClient.statistics "token" = HttpResult.transportError ∧
    (GetCriticalSubjects unreachableClient Cache.New "token").outcome = Outcome.fatal := by
  decide

/-- C7 (amended): when an upstream HTTP call returns an error, the run ends in
`log.Fatal`: no response of any kind is written, so no 200 response carrying a
payload, and the cache is as it was before the request. -/
theorem upstream_failure (client : Upstream) (goCache : Cache) (token : String) :
    (client.statistics token = HttpResult.transportError →
      (GetCriticalSubjects client goCache token).outcome = Outcome.fatal ∧
      (GetCriticalSubjects client goCache token).cache = goCache ∧
      (GetCriticalSubjects client goCache token).fetches = []) ∧
    (∀ u, (GetCriticalSubjects client goCache token).fetches = [u] →
      client.subjects token (intSliceToString u ",") = HttpResult.transportError →
      (GetCriticalSubjects client goCache token).outcome = Outcome.fatal ∧
      (GetCriticalSubjects client goCache token).cache = goCache) := by
  refine ⟨?_, ?_⟩
  · intro hst
    have h : getCriticalItemIds client token = none := by
      rw [getCriticalItemIds_eq, hst]
    rw [run_stats_error client goCache token h]
    exact ⟨rfl, rfl, rfl⟩
  · intro u hf hs
    obtain ⟨ids, h, hu, hne⟩ := run_fetch_inv client goCache token u hf
    subst hu
    rw [run_fetch_error client goCache token ids h hne hs]
    exact ⟨rfl, rfl⟩

/-- Witness of C7 (amended): a failing statistics call and a failing subject
call both end the run in `log.Fatal` with the cache untouched. -/
theorem upstream_failure_witness :
    (GetCriticalSubjects unreachableClient warmCache "token").outcome = Outcome.fatal ∧
    (GetCriticalSubjects unreachableClient warmCache "token").cache = warmCache ∧
    (GetCriticalSubjects halfReachableClient Cache.New "token").outcome = Outcome.fatal ∧
    (GetCriticalSubjects halfReachableClient Cache.New "token").cache = Cache.New :=
  ⟨((upstream_failure unreachableClient warmCache "token").1 (by decide)).1,
   ((upstream_failure unreachableClient warmCache "token").1 (by decide)).2.1,
   ((upstream_failure halfReachableClient Cache.New "token").2 [1] (by decide) (by decide)).1,
   ((upstream_failure halfReachableClient Cache.New "token").2 [1] (by decide) (by decide)).2⟩

/-- Counterexample to C8: with zero statistics entries the payload keeps the nil
slice it was created with, which is written as `null`, not as an empty array. -/
theorem empty_statistics_counterexample :
    idleClient.statistics "token" = HttpResult.response ⟨0, []⟩ false ∧
    (GetCriticalSubjects idleClient Cache.New "token").outcome
      = Outcome.json 200 ⟨GoSlice.nil⟩ ∧
    marshalSubjects ⟨GoSlice.nil⟩ = ⟨JsonSlice.null⟩ ∧
    marshalSubjects ⟨GoSlice.nil⟩ ≠ ⟨JsonSlice.array []⟩ := by
  decide

/-- C8 (amended): when the statistics call returns zero entries,
`GetCriticalSubjects` responds 200 with the JSON body whose `data` member is
`null`, makes no subject-fetch call and leaves the cache as it was. -/
theorem empty_statistics (client : Upstream) (goCache : Cache) (token : String)
    (st : reviewStatistics) (flag : Bool)
    (hst : client.statistics token = HttpResult.response st flag) (hz : st.Data = []) :
    (∃ body, (GetCriticalSubjects client goCache token).outcome = Outcome.json 200 body ∧
      marshalSubjects body = ⟨JsonSlice.null⟩) ∧
    (GetCriticalSubjects client goCache token).fetches = [] ∧
    (GetCriticalSubjects client goCache token).cache = goCache := by
  have h : getCriticalItemIds client token = some [] := by
    rw [getCriticalItemIds_eq, hst]
    simp [hz]
  rw [run_all_cached client goCache token [] h rfl]
  exact ⟨⟨_, rfl, rfl⟩, rfl, rfl⟩

/-- Witness of C8 (amended): no critical items and a cache holding 1 and 2. -/
theorem empty_statistics_witness :
    idleClient.statistics "token" = HttpResult.response (sampleStatistics []) false ∧
    (sampleStatistics []).Data = [] ∧
    (GetCriticalSubjects idleClient warmCache "token").fetches = [] :=
  ⟨rfl, rfl,
    (empty_statistics idleClient warmCache "token" (sampleStatistics []) false rfl rfl).2.1⟩

lemma reachable_keys (c : Cache) (h : Reachable c) :
    ∀ k v, c.Get k = some v → k = subjectKey v.ID := by
  induction h with
  | init => intro k v hget; simp [Cache.New, Cache.Get] at hget
  | run client goCache token _ ih =>
    intro k v hget
    rcases run_cache_cases client goCache token with hc | ⟨u, sub, flag, _, _, hc⟩
    · rw [hc] at hget
      exact ih k v hget
    · rw [hc] at hget
      rcases storeSubjects_get_cases goCache k sub.Data.toList with h1 | ⟨d, _, hk, hd⟩
      · rw [h1] at hget
        exact ih k v hget
      · rw [hd] at hget
        rw [← Option.some.inj hget, hk]

/-- C9: in every cache state reachable from the empty cache by runs of
`GetCriticalSubjects`, the entry stored under the key of subject ID i is a
detail whose ID is i, and the key function is injective on IDs, so distinct IDs
never share an entry. -/
theorem cache_entry_has_own_id (c : Cache) (h : Reachable c) :
    (∀ i v, c.Get (subjectKey i) = some v → v.ID = i) ∧
    (∀ i j, subjectKey i = subjectKey j → i = j) := by
  refine ⟨?_, fun i j hij => subjectKey_injective hij⟩
  intro i v hget
  exact (subjectKey_injective (reachable_keys c h _ v hget)).symm

/-- Witness of C9: the cache after one run from the empty cache holds the detail
of subject 2 under the key of 2. -/
theorem cache_entry_has_own_id_witness :
    Reachable (GetCriticalSubjects steadyClient Cache.New "token").cache ∧
    (GetCriticalSubjects steadyClient Cache.New "token").cache.Get (subjectKey 2)
      = some (sampleSubject 2 "two") ∧
    (sampleSubject 2 "two").ID = 2 :=
  ⟨Reachable.run steadyClient Cache.New "token" Reachable.init, by decide,
    (cache_entry_has_own_id (GetCriticalSubjects steadyClient Cache.New "token").cache
      (Reachable.run steadyClient Cache.New "token" Reachable.init)).1 2
      (sampleSubject 2 "two") (by decide)⟩

/-- C10: `intSliceToString s ","` is the decimal renderings of the elements of
s, in order, joined by single commas, with no leading or trailing comma; for a
non-empty s, splitting it on the comma and parsing each piece as a decimal
integer gives back s; for the empty list it is the empty string. -/
theorem intSliceToString_lossless (s : List Int) :
    (intSliceToString s ",").data
        = List.intercalate [','] (s.map (fun i => (Itoa i).data)) ∧
    (intSliceToString s ",").data.head? ≠ some ',' ∧
    (intSliceToString s ",").data.getLast? ≠ some ',' ∧
    (s ≠ [] →
      (stringsSplit (intSliceToString s ",") ',').map (fun piece => Atoi piece.data)
        = s.map some) ∧
    intSliceToString [] "," = "" := by
  have hdata := intSliceToString_data s ","
  have hcomma : (",": String).data = [','] := rfl
  rw [hcomma] at hdata
  have hends := intercalate_ends ',' (s.map (fun i => (Itoa i).data)) (by
    intro l hl
    obtain ⟨i, _, rfl⟩ := List.mem_map.mp hl
    exact ⟨Itoa_data_ne_nil i, comma_not_mem_Itoa i⟩)
  refine ⟨hdata, ?_, ?_, ?_, rfl⟩
  · rw [hdata]; exact hends.1
  · rw [hdata]; exact hends.2.1
  · intro hs
    unfold stringsSplit
    rw [hdata, List.splitOn_intercalate]
    · simp [List.map_map, Function.comp_def, Atoi_Itoa]
    · intro l hl
      obtain ⟨i, _, rfl⟩ := List.mem_map.mp hl
      exact comma_not_mem_Itoa i
    · simpa using hs

/-- Witness of C10: the list 12, -3, 0, 12. -/
theorem intSliceToString_lossless_witness :
    intSliceToString [12, -3, 0, 12] "," = "12,-3,0,12" ∧
    (stringsSplit (intSliceToString [12, -3, 0, 12] ",") ',').map (fun piece => Atoi piece.data)
      = [some 12, some (-3), some 0, some 12] :=
  ⟨by decide, (intSliceToString_lossless [12, -3, 0, 12]).2.2.2.1 (by decide)⟩

end Maikani
